import Mathlib

/-
Verification of the ts-maybe optional-value library.

The library (src/maybe.ts) defines a tagged union Maybe with variants
None and Some, lifting functions from raw JavaScript values (ofVal,
ofNullable, ofUndefinable), extraction (toNullable, get, withDefault),
inspection (isSome, isNone), the map family (map, map2, map3), the bind
family (bind, bind2), combine over lists, and the effectful iter.

Shallow embedding choices:
- Maybe is an inductive type with constructors None and Some, matching
  the two-variant tagged union of the source.
- JavaScript runtime values relevant to the lifting functions are
  embedded as the inductive type JSVal covering the null and undefined
  sentinels, booleans, integer numbers and strings.  The JavaScript
  double-negation coercion is embedded as toBoolean and the loose
  equality checks against null and undefined as looseEqNull and
  looseEqUndefined (loose equality with either sentinel matches both
  sentinels in JavaScript).
- get, the one throwing operation, returns Except EmptyValueError.
- iter, whose callback runs for its side effect, is embedded by explicit
  state passing: the callback is a state transformer and iter threads
  the state.
-/

namespace TsMaybe

/-- The tagged union of the source: variant None carries no payload,
variant Some carries exactly one payload value. -/
inductive Maybe (α : Type) where
  | None : Maybe α
  | Some (value : α) : Maybe α
deriving DecidableEq, Repr

/-- Embedding of the JavaScript runtime values the lifting functions
inspect: the two absence sentinels, booleans, numbers (modelled as
integers) and strings. -/
inductive JSVal where
  | vnull : JSVal
  | vundefined : JSVal
  | vbool (b : Bool) : JSVal
  | vnum (n : Int) : JSVal
  | vstr (s : String) : JSVal
deriving DecidableEq, Repr

/-- JavaScript loose equality with null: true exactly on the null and
undefined sentinels. -/
def looseEqNull : JSVal → Bool
  | JSVal.vnull => true
  | JSVal.vundefined => true
  | _ => false

/-- JavaScript loose equality with undefined: true exactly on the null
and undefined sentinels. -/
def looseEqUndefined : JSVal → Bool
  | JSVal.vnull => true
  | JSVal.vundefined => true
  | _ => false

/-- JavaScript boolean coercion (double negation): the sentinels, false,
zero and the empty string are falsy; everything else is truthy. -/
def toBoolean : JSVal → Bool
  | JSVal.vnull => false
  | JSVal.vundefined => false
  | JSVal.vbool b => b
  | JSVal.vnum n => decide (n ≠ 0)
  | JSVal.vstr s => decide (s ≠ "")

/-- Source ofVal: picks the presence check from useTruthyCheck (the
source default is false), then wraps in Some or returns None. -/
def ofVal (val : JSVal) (useTruthyCheck : Bool) : Maybe JSVal :=
  let check : JSVal → Bool :=
    if useTruthyCheck then fun value => toBoolean value
    else fun value => !(looseEqNull value) && !(looseEqUndefined value)
  if check val then Maybe.Some val else Maybe.None

/-- Source ofNullable: None when val loosely equals null, otherwise
ofVal with the default useTruthyCheck = false. -/
def ofNullable (val : JSVal) : Maybe JSVal :=
  if looseEqNull val then Maybe.None else ofVal val false

/-- Source ofUndefinable: None when val loosely equals undefined,
otherwise ofVal with the default useTruthyCheck = false. -/
def ofUndefinable (val : JSVal) : Maybe JSVal :=
  if looseEqUndefined val then Maybe.None else ofVal val false

/-- Source toNullable: None becomes the null sentinel, Some v becomes
the payload v. -/
def toNullable (maybe : Maybe JSVal) : JSVal :=
  match maybe with
  | Maybe.None => JSVal.vnull
  | Maybe.Some value => value

/-- Source isSome. -/
def isSome {α : Type} (maybe : Maybe α) : Bool :=
  match maybe with
  | Maybe.None => false
  | Maybe.Some _ => true

/-- Source isNone. -/
def isNone {α : Type} (maybe : Maybe α) : Bool :=
  match maybe with
  | Maybe.None => true
  | Maybe.Some _ => false

/-- The single failure kind the library can raise; the message field
holds the thrown error message of the source. -/
structure EmptyValueError where
  message : String
deriving DecidableEq, Repr

/-- Source get: throws on None (embedded as Except.error carrying the
source error message), returns the payload on Some. -/
def get {α : Type} (maybe : Maybe α) : Except EmptyValueError α :=
  match maybe with
  | Maybe.None =>
      Except.error (EmptyValueError.mk "Expected \x27Some\x27 but was given \x27None\x27")
  | Maybe.Some value => Except.ok value

/-- Source map: None propagates, the mapper is applied only under Some. -/
def map {α β : Type} (mapper : α → β) (maybe : Maybe α) : Maybe β :=
  match maybe with
  | Maybe.None => Maybe.None
  | Maybe.Some value => Maybe.Some (mapper value)

/-- Source bind: None propagates, the binder result passes through
unchanged under Some. -/
def bind {α β : Type} (binder : α → Maybe β) (maybe : Maybe α) : Maybe β :=
  match maybe with
  | Maybe.None => Maybe.None
  | Maybe.Some value => binder value

/-- The two-field record literal the source builds inside map2 and
bind2. -/
structure Vals2 (α β : Type) where
  value1 : α
  value2 : β

/-- The three-field record literal the source builds inside map3. -/
structure Vals3 (α β γ : Type) where
  value1 : α
  value2 : β
  value3 : γ

/-- Source map2, compositional over map and bind exactly as written. -/
def map2 {α β γ : Type} (mapper : α → β → γ)
    (maybe1 : Maybe α) (maybe2 : Maybe β) : Maybe γ :=
  map (fun values => mapper values.value1 values.value2)
    (bind (fun value1 => map (fun value2 => Vals2.mk value1 value2) maybe2) maybe1)

/-- Source bind2, compositional over bind and map exactly as written. -/
def bind2 {α β γ : Type} (binder : α → β → Maybe γ)
    (maybe1 : Maybe α) (maybe2 : Maybe β) : Maybe γ :=
  bind (fun values => binder values.value1 values.value2)
    (bind (fun value1 => map (fun value2 => Vals2.mk value1 value2) maybe2) maybe1)

/-- Source map3, compositional over map, bind2 and map exactly as
written. -/
def map3 {α β γ δ : Type} (mapper : α → β → γ → δ)
    (maybe1 : Maybe α) (maybe2 : Maybe β) (maybe3 : Maybe γ) : Maybe δ :=
  map (fun values => mapper values.value1 values.value2 values.value3)
    (bind2
      (fun value1 value2 =>
        map (fun value3 => Vals3.mk value1 value2 value3) maybe3)
      maybe1 maybe2)

/-- The reducer the source passes to Array.reduce inside combine. -/
def combineStep {α : Type} (acc : Maybe (List α)) (curr : Maybe α) : Maybe (List α) :=
  bind (fun value => map (fun value2 => value ++ [value2]) curr) acc

/-- Source combine: a left fold of the reducer over the list, seeded
with Some of the empty list. -/
def combine {α : Type} (maybes : List (Maybe α)) : Maybe (List α) :=
  maybes.foldl combineStep (Maybe.Some [])

/-- Source iter: the effectful callback is embedded as a state
transformer; the match runs it only in the Some case and leaves the
state unchanged on None. -/
def iter {α σ : Type} (action : α → σ → σ) (maybe : Maybe α) : σ → σ :=
  fun s =>
    match maybe with
    | Maybe.Some value => action value s
    | Maybe.None => s

/-- Source withDefault: the payload under Some, the default under
None. -/
def withDefault {α : Type} (def_ : α) (maybe : Maybe α) : α :=
  match maybe with
  | Maybe.Some value => value
  | Maybe.None => def_

end TsMaybe

namespace TsMaybe

/-- Claim C3: map and bind send None to None with the function never
invoked (the result does not depend on the function at all), and on
Some v map yields Some of the image while bind returns the binder
result unchanged. -/
theorem map_bind_basic {α β : Type} (f : α → Maybe β) (g : α → β) (v : α) :
    map g (Maybe.None : Maybe α) = Maybe.None ∧
    bind f (Maybe.None : Maybe α) = Maybe.None ∧
    map g (Maybe.Some v) = Maybe.Some (g v) ∧
    bind f (Maybe.Some v) = f v ∧
    (∀ g2 : α → β, map g (Maybe.None : Maybe α) = map g2 Maybe.None) ∧
    (∀ f2 : α → Maybe β, bind f (Maybe.None : Maybe α) = bind f2 Maybe.None) := by
  refine ⟨rfl, rfl, rfl, rfl, ?_, ?_⟩ <;> intro x <;> rfl

/-- Claim C1: get on Some v succeeds with v, get on None fails with the
EmptyValueError carrying the source message, and get fails on no other
input: an error result forces the input to be None.  Every other
operation of the embedding is a total function by its type, so get is
the only fallible operation. -/
theorem get_spec {α : Type} (v : α) (m : Maybe α) :
    get (Maybe.Some v) = Except.ok v ∧
    get (Maybe.None : Maybe α) =
      Except.error (EmptyValueError.mk "Expected \x27Some\x27 but was given \x27None\x27") ∧
    ((∃ e : EmptyValueError, get m = Except.error e) ↔ m = Maybe.None) := by
  refine ⟨rfl, rfl, ?_⟩
  cases m with
  | None => simp [get]
  | Some w =>
      simp only [get]
      constructor
      · rintro ⟨e, he⟩
        exact absurd he (by simp)
      · intro h
        exact absurd h (by simp)

/-- Folding the combine reducer from a None accumulator stays None. -/
theorem foldl_combineStep_none {α : Type} (l : List (Maybe α)) :
    l.foldl combineStep Maybe.None = Maybe.None := by
  induction l with
  | nil => rfl
  | cons m l ih =>
      have hstep : combineStep (Maybe.None : Maybe (List α)) m = Maybe.None := rfl
      simpa [List.foldl, hstep] using ih

/-- Folding the combine reducer from a Some accumulator factors as the
fold from the empty accumulator with the prefix appended in front. -/
theorem foldl_combineStep_some {α : Type} (l : List (Maybe α)) (a : List α) :
    l.foldl combineStep (Maybe.Some a) =
      map (fun vs => a ++ vs) (l.foldl combineStep (Maybe.Some [])) := by
  induction l generalizing a with
  | nil => simp [map]
  | cons m l ih =>
      cases m with
      | None =>
          simp [List.foldl, combineStep, bind, map, foldl_combineStep_none]
      | Some v =>
          have h1 : combineStep (Maybe.Some a) (Maybe.Some v) = Maybe.Some (a ++ [v]) := rfl
          have h2 :
              combineStep (Maybe.Some ([] : List α)) (Maybe.Some v) = Maybe.Some [v] := rfl
          simp only [List.foldl, h1, h2, ih (a ++ [v]), ih [v]]
          cases l.foldl combineStep (Maybe.Some ([] : List α)) with
          | None => rfl
          | Some vs => simp [map, List.append_assoc]

/-- Claim C2: combine maps an all-Some list to Some of the payloads in
input order, and conversely a Some result can only come from the
corresponding all-Some list; a None anywhere in the list forces the
None result; and combine of the empty list is Some of the empty
list. -/
theorem combine_spec {α : Type} (l : List (Maybe α)) :
    (∀ vs : List α, l = vs.map Maybe.Some → combine l = Maybe.Some vs) ∧
    (∀ vs : List α, combine l = Maybe.Some vs → l = vs.map Maybe.Some) ∧
    (Maybe.None ∈ l → combine l = Maybe.None) ∧
    combine ([] : List (Maybe α)) = Maybe.Some [] := by
  refine ⟨?_, ?_, ?_, rfl⟩
  · intro vs hvs
    subst hvs
    induction vs with
    | nil => rfl
    | cons v vs ih =>
        have h2 :
            combineStep (Maybe.Some ([] : List α)) (Maybe.Some v) = Maybe.Some [v] := rfl
        simp only [combine, List.map, List.foldl, h2]
        rw [foldl_combineStep_some]
        simp only [combine] at ih
        rw [ih]
        simp [map]
  · induction l with
    | nil =>
        intro vs hvs
        simp only [combine, List.foldl] at hvs
        cases hvs
        rfl
    | cons m l ih =>
        intro vs hvs
        cases m with
        | None =>
            exfalso
            have hnone :
                combineStep (Maybe.Some ([] : List α)) Maybe.None = Maybe.None := rfl
            simp only [combine, List.foldl, hnone, foldl_combineStep_none] at hvs
            exact Maybe.noConfusion hvs
        | Some v =>
            have h2 :
                combineStep (Maybe.Some ([] : List α)) (Maybe.Some v) = Maybe.Some [v] := rfl
            simp only [combine, List.foldl, h2] at hvs
            rw [foldl_combineStep_some] at hvs
            cases htail : l.foldl combineStep (Maybe.Some ([] : List α)) with
            | None => rw [htail] at hvs; exact absurd hvs (by simp [map])
            | Some ws =>
                rw [htail] at hvs
                simp only [map] at hvs
                cases hvs
                have := ih ws htail
                simp [List.map, this]
  · intro hmem
    induction l with
    | nil => cases hmem
    | cons m l ih =>
        cases m with
        | None =>
            have hnone :
                combineStep (Maybe.Some ([] : List α)) Maybe.None = Maybe.None := rfl
            simp [combine, List.foldl, hnone, foldl_combineStep_none]
        | Some v =>
            have hmem2 : Maybe.None ∈ l := by
              rcases List.mem_cons.mp hmem with h | h
              · cases h
              · exact h
            have h2 :
                combineStep (Maybe.Some ([] : List α)) (Maybe.Some v) = Maybe.Some [v] := rfl
            simp only [combine, List.foldl, h2]
            rw [foldl_combineStep_some]
            simp only [combine] at ih
            rw [ih hmem2]
            rfl

/-- Claim C2 witness: combine evaluated on concrete lists through the
theorem. -/
theorem combine_spec_witness :
    combine [Maybe.Some 1, Maybe.Some 2] = Maybe.Some [1, 2] ∧
    combine [Maybe.Some 1, Maybe.None, Maybe.Some 3] = (Maybe.None : Maybe (List Nat)) ∧
    combine ([] : List (Maybe Nat)) = Maybe.Some [] := by
  refine ⟨?_, ?_, ?_⟩
  · exact (combine_spec [Maybe.Some 1, Maybe.Some 2]).1 [1, 2] (by decide)
  · exact (combine_spec [Maybe.Some 1, Maybe.None, Maybe.Some 3]).2.2.1 (by decide)
  · exact (combine_spec ([] : List (Maybe Nat))).2.2.2

/-- Claim C4: map2, map3 and bind2 collapse to None as soon as any
Optional argument is None, independently of the supplied function
(the equations hold for every function, so it is never invoked), and
when all arguments are Some they apply the function to the payloads in
argument order, bind2 returning the binder result as-is. -/
theorem map2_map3_bind2_spec {α β γ δ : Type} (f : α → β → γ)
    (g : α → β → γ → δ) (k : α → β → Maybe γ)
    (m1 : Maybe α) (m2 : Maybe β) (m3 : Maybe γ)
    (v1 : α) (v2 : β) (v3 : γ) :
    map2 f Maybe.None m2 = Maybe.None ∧
    map2 f m1 Maybe.None = Maybe.None ∧
    map2 f (Maybe.Some v1) (Maybe.Some v2) = Maybe.Some (f v1 v2) ∧
    map3 g Maybe.None m2 m3 = Maybe.None ∧
    map3 g m1 Maybe.None m3 = Maybe.None ∧
    map3 g m1 m2 Maybe.None = Maybe.None ∧
    map3 g (Maybe.Some v1) (Maybe.Some v2) (Maybe.Some v3) = Maybe.Some (g v1 v2 v3) ∧
    bind2 k Maybe.None m2 = Maybe.None ∧
    bind2 k m1 Maybe.None = Maybe.None ∧
    bind2 k (Maybe.Some v1) (Maybe.Some v2) = k v1 v2 := by
  refine ⟨rfl, ?_, rfl, rfl, ?_, ?_, rfl, rfl, ?_, rfl⟩
  · cases m1 <;> rfl
  · cases m1 <;> rfl
  · cases m1 <;> cases m2 <;> rfl
  · cases m1 <;> rfl

/-- Claim C6: with useTruthyCheck false, ofVal returns None exactly on
the null and undefined sentinels and Some of the value otherwise; with
useTruthyCheck true it returns None exactly on the falsy values of the
JavaScript boolean coercion and Some of the value otherwise; in
particular ofVal 0 false is Some 0 and ofVal 0 true is None. -/
theorem ofVal_spec (v : JSVal) :
    (ofVal v false = Maybe.None ↔ (v = JSVal.vnull ∨ v = JSVal.vundefined)) ∧
    (ofVal v false = Maybe.Some v ↔ ¬(v = JSVal.vnull ∨ v = JSVal.vundefined)) ∧
    (ofVal v true = Maybe.None ↔ toBoolean v = false) ∧
    (ofVal v true = Maybe.Some v ↔ toBoolean v = true) ∧
    ofVal (JSVal.vnum 0) false = Maybe.Some (JSVal.vnum 0) ∧
    ofVal (JSVal.vnum 0) true = Maybe.None := by
  refine ⟨?_, ?_, ?_, ?_, rfl, rfl⟩ <;>
    cases v <;> simp [ofVal, looseEqNull, looseEqUndefined, toBoolean]

/-- Claim C7: ofNullable coincides with ofVal at useTruthyCheck false on
every input, returning None exactly on the null and undefined sentinels
and Some of the value otherwise. -/
theorem ofNullable_spec (v : JSVal) :
    ofNullable v = ofVal v false ∧
    (ofNullable v = Maybe.None ↔ (v = JSVal.vnull ∨ v = JSVal.vundefined)) ∧
    (ofNullable v = Maybe.Some v ↔ ¬(v = JSVal.vnull ∨ v = JSVal.vundefined)) := by
  refine ⟨?_, ?_, ?_⟩ <;>
    cases v <;> simp [ofNullable, ofVal, looseEqNull, looseEqUndefined]

/-- Claim C9: ofNullable and ofUndefinable are extensionally the same
function: both loose-equality guards match exactly the null and
undefined sentinels, so the two lifts agree on every input. -/
theorem ofNullable_eq_ofUndefinable (v : JSVal) :
    ofNullable v = ofUndefinable v := by
  cases v <;> rfl

/-- Claim C10: the round trip ofNullable after toNullable is the
identity on None and on Some of any value other than the two absence
sentinels, but sends Some null and Some undefined to None, conflating
them with absence at the nullable boundary. -/
theorem ofNullable_toNullable_round_trip (v : JSVal)
    (h1 : v ≠ JSVal.vnull) (h2 : v ≠ JSVal.vundefined) :
    ofNullable (toNullable (Maybe.Some v)) = Maybe.Some v ∧
    ofNullable (toNullable (Maybe.None : Maybe JSVal)) = Maybe.None ∧
    ofNullable (toNullable (Maybe.Some JSVal.vnull)) = Maybe.None ∧
    ofNullable (toNullable (Maybe.Some JSVal.vundefined)) = Maybe.None := by
  refine ⟨?_, rfl, rfl, rfl⟩
  cases v with
  | vnull => exact absurd rfl h1
  | vundefined => exact absurd rfl h2
  | vbool b => rfl
  | vnum n => rfl
  | vstr s => rfl

/-- Claim C10 witness: the round trip evaluated through the theorem at a
concrete non-sentinel value. -/
theorem ofNullable_toNullable_round_trip_witness :
    ofNullable (toNullable (Maybe.Some (JSVal.vnum 1))) = Maybe.Some (JSVal.vnum 1) :=
  (ofNullable_toNullable_round_trip (JSVal.vnum 1) (by decide) (by decide)).1

/-- Claim C5: binding with the Some-wrapped version of a function is
extensionally map of that function. -/
theorem bind_some_eq_map {α β : Type} (f : α → β) (m : Maybe α) :
    bind (fun x => Maybe.Some (f x)) m = map f m := by
  cases m <;> rfl

/-- Claim C8: iter applies the action exactly once, to the payload and
the incoming state, when the input is Some, and leaves the state
untouched (zero invocations, witnessed by an invocation counter) when
the input is None; it returns nothing beyond the threaded state. -/
theorem iter_behavior {α σ : Type} (action : α → σ → σ) (v : α) (s : σ) :
    iter action (Maybe.Some v) s = action v s ∧
    iter action (Maybe.None : Maybe α) s = s ∧
    (iter (fun x p => (action x p.1, p.2 + 1)) (Maybe.Some v) (s, 0)).2 = 1 ∧
    (iter (fun x p => (action x p.1, p.2 + 1)) (Maybe.None : Maybe α) (s, 0)).2 = 0 := by
  exact ⟨rfl, rfl, rfl, rfl⟩

end TsMaybe
